import Mathlib

/-!
# Verification of the uploads-api chunked-upload service

Shallow embedding of `handler/api_handler.go` and `domain` from
`mohammadanang/uploads-api`.

The service persists uploaded chunks as files named
`<fileName>.part<chunkIndex>` inside `./temp` (`UploadFile`), and merges
them into `./uploads/<fileName>` (`MergeChunks`): one goroutine per chunk
index in `[0, totalChunks)` opens and reads its chunk, then appends it to
the shared output file under a mutex, then removes the chunk file; after
all goroutines join, `cleanUpTempFiles` removes every file matching the
glob `./temp/*.part*`, failing the whole call on the first removal error.

Modelling choices:
* File contents are `List Nat` (byte values).  Each directory is an
  association list from base file name to contents (`FileMap`); the keys
  of `FS.temp` are the names directly inside `./temp`, those of
  `FS.uploads` the names inside `./uploads`.
* Go's `fmt.Sprintf("%s.part%d", f, i)` is embedded by `partName`, with
  `%d` rendered by `intRepr` (plain decimal, `-` sign for negatives).
* I/O failures are injected through environments (`UploadEnv`,
  `MergeEnv`) of boolean fault switches, one per fallible operation of
  the source, mirroring where the source checks (or ignores) each error.
* Concurrency: within one merge the goroutines touch disjoint chunk
  files and only contend on the mutex-guarded write to the output file,
  so every execution is observationally a sequential run in the order
  the goroutines acquire the mutex.  That order is supplied by
  `MergeEnv.sched`, a scheduler reordering the spawned task list
  `List.range totalChunks.toNat`; theorems quantify over schedules that
  are permutations of the task list, covering all interleavings.
-/

/-- Decimal digit to character, as produced by Go's `%d` verb. -/
def digitChar : Nat → Char
  | 0 => '0' | 1 => '1' | 2 => '2' | 3 => '3' | 4 => '4'
  | 5 => '5' | 6 => '6' | 7 => '7' | 8 => '8' | _ => '9'

/-- Left inverse of `digitChar` on digits. -/
def charVal : Char → Nat
  | '1' => 1 | '2' => 2 | '3' => 3 | '4' => 4 | '5' => 5
  | '6' => 6 | '7' => 7 | '8' => 8 | '9' => 9 | _ => 0

/-- Fuel-indexed decimal rendering of a natural number (most significant
digit first).  `fuel > n` guarantees enough recursion depth. -/
def decReprAux : Nat → Nat → List Char
  | 0, _ => []
  | fuel + 1, n =>
    if n < 10 then [digitChar n]
    else decReprAux fuel (n / 10) ++ [digitChar (n % 10)]

/-- Decimal rendering of a natural number, the embedding of `%d` on a
non-negative Go `int`: plain decimal, no padding. -/
def decRepr (n : Nat) : String :=
  String.mk (decReprAux (n + 1) n)

/-- Rendering of a Go `int` by `%d`: decimal digits, preceded by `-`
when negative. -/
def intRepr (i : Int) : String :=
  if i < 0 then "-" ++ decRepr i.natAbs else decRepr i.toNat

/-- Embedding of `fmt.Sprintf("%s.part%d", f, i)`: the base name of the chunk
artifact for logical file `f` and chunk index `i`. -/
def partName (f : String) (i : Int) : String :=
  f ++ ".part" ++ intRepr i

/-- Chunk artifact name at a non-negative index, as used by the merge
loop (`for i := range body.TotalChunks`). -/
def partNameN (f : String) (i : Nat) : String :=
  partName f (Int.ofNat i)

/-- One directory: file base name to file contents (bytes). -/
abbrev FileMap := List (String × List Nat)

/-- Contents of file `k`, `none` when absent (`os.Open` → `IsNotExist`). -/
def getFile : FileMap → String → Option (List Nat)
  | [], _ => none
  | (k', v) :: rest, k => if k' = k then some v else getFile rest k

/-- Create or truncate-and-write file `k` (`os.Create` + write). -/
def setFile : FileMap → String → List Nat → FileMap
  | [], k, v => [(k, v)]
  | (k', v') :: rest, k, v =>
    if k' = k then (k, v) :: rest else (k', v') :: setFile rest k v

/-- Embedding of `os.Remove k` (no effect when the file is absent). -/
def removeFile (m : FileMap) (k : String) : FileMap :=
  m.filter fun e => decide ¬(e.1 = k)

/-- Does `pat` occur contiguously inside the character list? -/
def listStarts : List Char → List Char → Bool
  | [], _ => true
  | _ :: _, [] => false
  | p :: ps, c :: cs => if p = c then listStarts ps cs else false

/-- Here `hasSub pat l = true` iff `pat` is a contiguous sublist of `l`. -/
def hasSub (pat : List Char) : List Char → Bool
  | [] => decide (pat = [])
  | c :: cs => listStarts pat (c :: cs) || hasSub pat cs

/-- The glob `*.part*` of `cleanUpTempFiles`: since `*` matches any
(possibly empty) run of non-separator characters, a base name matches
exactly when it contains `.part` as a substring. -/
def globPartMatch (name : String) : Bool :=
  hasSub ".part".toList name.toList

section MapLemmas

theorem getFile_setFile_self (m : FileMap) (k : String) (v : List Nat) :
    getFile (setFile m k v) k = some v := by
  induction m with
  | nil => simp [setFile, getFile]
  | cons e rest ih =>
    obtain ⟨a, b⟩ := e
    by_cases ha : a = k
    · simp [setFile, ha, getFile]
    · simp [setFile, ha, getFile, ih]

theorem getFile_setFile_ne (m : FileMap) (k k' : String) (v : List Nat)
    (h : k' ≠ k) : getFile (setFile m k v) k' = getFile m k' := by
  have hk : ¬(k = k') := fun hh => h hh.symm
  induction m with
  | nil => simp [setFile, getFile, hk]
  | cons e rest ih =>
    obtain ⟨a, b⟩ := e
    by_cases ha : a = k
    · have ha' : ¬(a = k') := by
        rw [ha]
        exact hk
      simp [setFile, ha, getFile, hk, ha']
    · by_cases ha' : a = k'
      · simp [setFile, ha, getFile, ha', h]
      · simp [setFile, ha, getFile, ha', ih]

theorem getFile_removeFile_self (m : FileMap) (k : String) :
    getFile (removeFile m k) k = none := by
  induction m with
  | nil => rfl
  | cons e rest ih =>
    obtain ⟨a, b⟩ := e
    by_cases ha : a = k
    · simpa [removeFile, List.filter_cons, ha] using ih
    · simpa [removeFile, List.filter_cons, ha, getFile] using ih

theorem getFile_removeFile_ne (m : FileMap) (k k' : String) (h : k' ≠ k) :
    getFile (removeFile m k) k' = getFile m k' := by
  have hk : ¬(k = k') := fun hh => h hh.symm
  induction m with
  | nil => rfl
  | cons e rest ih =>
    obtain ⟨a, b⟩ := e
    by_cases ha : a = k
    · simpa [removeFile, List.filter_cons, ha, getFile, hk] using ih
    · by_cases ha' : a = k'
      · simp [removeFile, List.filter_cons, ha, getFile, ha', h]
      · simpa [removeFile, List.filter_cons, ha, getFile, ha'] using ih

theorem getFile_removeFile_none (m : FileMap) (k k' : String)
    (h : getFile m k' = none) : getFile (removeFile m k) k' = none := by
  by_cases hk : k' = k
  · subst hk
    exact getFile_removeFile_self m k'
  · rw [getFile_removeFile_ne m k k' hk]
    exact h

end MapLemmas

section NameLemmas

/-- Value of a digit string, used to invert `decRepr`. -/
def valOf (cs : List Char) : Nat :=
  cs.foldl (fun a c => 10 * a + charVal c) 0

theorem charVal_digitChar : ∀ d, d < 10 → charVal (digitChar d) = d := by
  decide

theorem valOf_append (cs : List Char) (c : Char) :
    valOf (cs ++ [c]) = 10 * valOf cs + charVal c := by
  simp [valOf, List.foldl_append]

theorem valOf_decReprAux : ∀ fuel n, n < fuel → valOf (decReprAux fuel n) = n := by
  intro fuel
  induction fuel with
  | zero => intro n hn; omega
  | succ fuel ih =>
    intro n hn
    by_cases h10 : n < 10
    · simp [decReprAux, h10, valOf, charVal_digitChar n h10]
    · have hdiv : n / 10 < fuel := by
        have h1 : n / 10 < n := Nat.div_lt_self (by omega) (by omega)
        omega
      have hmod : n % 10 < 10 := Nat.mod_lt _ (by omega)
      simp only [decReprAux, h10, if_false, valOf_append, ih _ hdiv,
        charVal_digitChar _ hmod]
      omega

theorem valOf_decRepr (n : Nat) : valOf (decRepr n).data = n := by
  simpa [decRepr] using valOf_decReprAux (n + 1) n (Nat.lt_succ_self n)

theorem decRepr_inj {m n : Nat} (h : decRepr m = decRepr n) : m = n := by
  have := congrArg (fun s => valOf (String.data s)) h
  simpa [valOf_decRepr] using this

theorem intRepr_ofNat (i : Nat) : intRepr (Int.ofNat i) = decRepr i := by
  have h : ¬((Int.ofNat i) < 0) := by
    rw [Int.ofNat_eq_coe]
    omega
  have h2 : (Int.ofNat i).toNat = i := by
    rw [Int.ofNat_eq_coe]
    omega
  rw [intRepr, if_neg h, h2]

theorem partNameN_eq (f : String) (i : Nat) :
    partNameN f i = f ++ ".part" ++ decRepr i := by
  rw [partNameN, partName, intRepr_ofNat]

theorem string_append_left_cancel {f s t : String} (h : f ++ s = f ++ t) :
    s = t := by
  have hd : f.data ++ s.data = f.data ++ t.data := by
    have := congrArg String.data h
    simpa [String.data_append] using this
  have := List.append_cancel_left hd
  cases s
  cases t
  simpa using congrArg String.mk this

theorem partNameN_inj (f : String) {i j : Nat}
    (h : partNameN f i = partNameN f j) : i = j := by
  rw [partNameN_eq, partNameN_eq, String.append_assoc, String.append_assoc] at h
  have h2 := string_append_left_cancel h
  exact decRepr_inj (string_append_left_cancel h2)

theorem listStarts_self (pat rest : List Char) :
    listStarts pat (pat ++ rest) = true := by
  induction pat with
  | nil => rfl
  | cons p ps ih => simp [listStarts, ih]

theorem hasSub_cons (pat : List Char) (x : Char) (l : List Char) :
    hasSub pat (x :: l) = (listStarts pat (x :: l) || hasSub pat l) := rfl

theorem hasSub_at_front (pat rest : List Char) :
    hasSub pat (pat ++ rest) = true := by
  cases pat with
  | nil =>
    cases rest with
    | nil => rfl
    | cons c cs => simp [hasSub, listStarts]
  | cons p ps =>
    have h := listStarts_self (p :: ps) rest
    simp only [List.cons_append] at h
    simp [hasSub, h]

theorem hasSub_of_middle (a pat b : List Char) :
    hasSub pat (a ++ pat ++ b) = true := by
  induction a with
  | nil => simpa using hasSub_at_front pat b
  | cons x xs ih =>
    have hx : (x :: xs) ++ pat ++ b = x :: (xs ++ pat ++ b) := by simp
    rw [hx, hasSub_cons, ih, Bool.or_true]

theorem globPartMatch_partName (f : String) (i : Int) :
    globPartMatch (partName f i) = true := by
  have hd : (partName f i).data = f.data ++ ".part".data ++ (intRepr i).data := by
    simp [partName, String.data_append]
  simp only [globPartMatch, String.toList, hd]
  exact hasSub_of_middle f.data ".part".data (intRepr i).data

end NameLemmas

/-- The filesystem state the handlers manipulate: the contents of the
temporary directory `./temp`, of the final directory `./uploads`, and
whether each of those two directories exists (for `os.Stat` checks). -/
structure FS where
  temp : FileMap
  uploads : FileMap
  uploadsDirExists : Bool
  tempDirExists : Bool
  deriving DecidableEq

/-- Error kinds surfaced to the HTTP caller, per the response taxonomy
(`invalid-request` 400 on body parsing, `file-missing` 400 on the absent
form file, `io-failure` 500 on any OS-level failure). -/
inductive ErrKind where
  | invalidRequest
  | fileMissing
  | ioFailure
  deriving DecidableEq

/-- Messages printed with `fmt.Printf` inside the merge goroutines.
There is no constructor for a failed `os.Remove` of a consumed chunk
because the source discards that error without printing. -/
inductive LogMsg where
  | missing (i : Nat)
  | openFail (i : Nat)
  | readFail (i : Nat)
  | writeFail (i : Nat)
  deriving DecidableEq

/-- Fault switches for the fallible operations of `UploadFile`, in
source order: body parsing, `c.FormFile`, `os.Create` of the temp file,
`file.Open`, `io.CopyBuffer`. -/
structure UploadEnv where
  parseOk : Bool
  formFileOk : Bool
  createOk : Bool
  openOk : Bool
  copyOk : Bool
  deriving DecidableEq

/-- The `os.Stat`/`os.MkdirAll` prologue of `UploadFile`.  `MkdirAll` is
only invoked when the directory is absent; its error is discarded by the
source.  Returns the new state and the list of directories created. -/
def ensureDirs (fs : FS) : FS × List String :=
  let s1 :=
    if fs.uploadsDirExists = false then
      ({ fs with uploadsDirExists := true }, ["./uploads"])
    else (fs, [])
  if s1.1.tempDirExists = false then
    ({ s1.1 with tempDirExists := true }, s1.2 ++ ["./temp"])
  else (s1.1, s1.2)

/-- Embedding of `UploadFile`: ensure both directories, parse the body
(`chunk_index`), fetch the multipart file (whose client-supplied name is
`f`), create `./temp/<f>.part<i>` (truncating), open the upload, and
stream it into the temp file with a 1 MiB buffer.  Each failure aborts
the call with the kind the source reports. -/
def uploadFile (env : UploadEnv) (fs : FS) (f : String) (i : Int)
    (d : List Nat) : Except ErrKind FS :=
  let fs0 := (ensureDirs fs).1
  if env.parseOk = false then .error .invalidRequest
  else if env.formFileOk = false then .error .fileMissing
  else if env.createOk = false then .error .ioFailure
  else
    let t1 := setFile fs0.temp (partName f i) []
    if env.openOk = false then .error .ioFailure
    else if env.copyOk = false then .error .ioFailure
    else .ok { fs0 with temp := setFile t1 (partName f i) d }

/-- Fault switches and the interleaving for one `MergeChunks` call:
body parsing, `os.Create` of the output file, per-chunk `os.Open`
(when the file exists), `io.ReadAll`, `outputFile.Write`, goroutine-side
`os.Remove`, sweep-side `os.Remove`, and the scheduler `sched` giving
the order in which the spawned goroutines acquire the mutex. -/
structure MergeEnv where
  parseOk : Bool
  createOk : Bool
  openOk : Nat → Bool
  readOk : Nat → Bool
  writeOk : Nat → Bool
  removeOk : Nat → Bool
  sweepRemoveOk : String → Bool
  sched : List Nat → List Nat

/-- State threaded through the merge goroutines: the temp directory,
the bytes written so far to the output file, and the log so far. -/
abbrev MState := FileMap × List Nat × List LogMsg

/-- The body of one merge goroutine (chunk index `i`): open
`./temp/<f>.part<i>` (absence and open failure are printed and skipped),
read it, append it to the output under the mutex (failure printed and
skipped), then `os.Remove` the chunk file — that error is discarded, so
a failed remove leaves the file in place and logs nothing. -/
def processChunk (env : MergeEnv) (f : String) (s : MState) (i : Nat) : MState :=
  let (temp, out, log) := s
  match getFile temp (partNameN f i) with
  | none => (temp, out, log ++ [LogMsg.missing i])
  | some data =>
    if env.openOk i = false then (temp, out, log ++ [LogMsg.openFail i])
    else if env.readOk i = false then (temp, out, log ++ [LogMsg.readFail i])
    else if env.writeOk i = false then (temp, out, log ++ [LogMsg.writeFail i])
    else if env.removeOk i = false then (temp, out ++ data, log)
    else (removeFile temp (partNameN f i), out ++ data, log)

/-- Embedding of `for i := range totalChunks { go ... }; wg.Wait()`: the goroutines
for indices `sched` (a reordering of `List.range totalChunks.toNat`)
run, serialized in mutex-acquisition order. -/
def mergeLoop (env : MergeEnv) (f : String) (sched : List Nat) (s : MState) :
    MState :=
  sched.foldl (processChunk env f) s

/-- Remove the listed files one by one, failing (with the offending
name) on the first file whose removal fails, as `cleanUpTempFiles`
does. -/
def sweepRemove (ok : String → Bool) : List String → FileMap →
    Except String FileMap
  | [], temp => .ok temp
  | n :: rest, temp =>
    if ok n = false then .error n
    else sweepRemove ok rest (removeFile temp n)

/-- Embedding of `filepath.Glob("./temp/*.part*")`: the names in the temp directory
matching the glob, in directory order. -/
def globMatches (temp : FileMap) : List String :=
  (temp.map Prod.fst).filter globPartMatch

/-- Embedding of `cleanUpTempFiles`: glob the temp directory for `*.part*` and
remove every match, failing the whole sweep on the first removal error.
(The fixed pattern is never `ErrBadPattern`, and an absent temp
directory is the `temp = []` case.) -/
def cleanUpTempFiles (ok : String → Bool) (temp : FileMap) :
    Except String FileMap :=
  sweepRemove ok (globMatches temp) temp

/-- Embedding of `MergeChunks`: parse the body (`file_name`, `total_chunks`), create
`./uploads/<f>` (truncating; fatal on failure), run one goroutine per
index in `[0, totalChunks)` — serialized in the mutex order
`env.sched (List.range totalChunks.toNat)` — join, then sweep the temp
directory (fatal on failure).  Per-chunk failures never fail the call. -/
def mergeChunks (env : MergeEnv) (fs : FS) (f : String) (totalChunks : Int) :
    Except ErrKind (FS × List LogMsg) :=
  if env.parseOk = false then .error .invalidRequest
  else if env.createOk = false then .error .ioFailure
  else
    let s := mergeLoop env f (env.sched (List.range totalChunks.toNat))
      (fs.temp, [], [])
    match cleanUpTempFiles env.sweepRemoveOk s.1 with
    | .error _ => .error .ioFailure
    | .ok temp' =>
      .ok ({ fs with temp := temp', uploads := setFile fs.uploads f s.2.1 },
        s.2.2)

/-- The merged output artifact's contents after a `MergeChunks` call,
`none` when the call failed. -/
def mergeOut (env : MergeEnv) (fs : FS) (f : String) (totalChunks : Int) :
    Option (List Nat) :=
  match mergeChunks env fs f totalChunks with
  | .error _ => none
  | .ok (fs', _) => getFile fs'.uploads f

/-- An `UploadFile` execution in which every I/O operation succeeds. -/
def okUpEnv : UploadEnv :=
  { parseOk := true, formFileOk := true, createOk := true, openOk := true,
    copyOk := true }

/-- A `MergeChunks` execution in which every I/O operation succeeds and
the goroutines acquire the mutex in the order given by `σ`. -/
def okMergeEnv (σ : List Nat → List Nat) : MergeEnv :=
  { parseOk := true, createOk := true, openOk := fun _ => true,
    readOk := fun _ => true, writeOk := fun _ => true,
    removeOk := fun _ => true, sweepRemoveOk := fun _ => true, sched := σ }

/-- Per-chunk success of every goroutine-local operation (open, read,
write, remove), leaving the fatal switches and the schedule free. -/
def allChunkOk (env : MergeEnv) : Prop :=
  (∀ i, env.openOk i = true) ∧ (∀ i, env.readOk i = true) ∧
    (∀ i, env.writeOk i = true) ∧ (∀ i, env.removeOk i = true)

/-- Whether a call succeeded (the `error: false` flag of the response). -/
def exceptOk {ε α : Type} : Except ε α → Bool
  | .ok _ => true
  | .error _ => false

section UploadLemmas

theorem ensureDirs_temp (fs : FS) : (ensureDirs fs).1.temp = fs.temp := by
  rw [ensureDirs]
  split <;> split <;> rfl

theorem ensureDirs_uploads (fs : FS) : (ensureDirs fs).1.uploads = fs.uploads := by
  rw [ensureDirs]
  split <;> split <;> rfl

theorem ensureDirs_flags (fs : FS) :
    (ensureDirs fs).1.uploadsDirExists = true ∧
      (ensureDirs fs).1.tempDirExists = true := by
  rw [ensureDirs]
  rcases fs with ⟨t, u, ud, td⟩
  cases ud <;> cases td <;> simp

theorem ensureDirs_of_exists (fs : FS) (hu : fs.uploadsDirExists = true)
    (ht : fs.tempDirExists = true) : ensureDirs fs = (fs, []) := by
  rw [ensureDirs, hu, ht]
  simp [ht]

/-- Inversion of a successful upload: the resulting state is the
directory-ensured state with the chunk artifact written. -/
theorem uploadFile_ok_shape {env : UploadEnv} {fs : FS} {f : String}
    {i : Int} {d : List Nat} {fs' : FS}
    (h : uploadFile env fs f i d = .ok fs') :
    fs' = { (ensureDirs fs).1 with
      temp := setFile (setFile (ensureDirs fs).1.temp (partName f i) [])
        (partName f i) d } := by
  obtain ⟨p, ff, cr, op, cp⟩ := env
  cases p <;> cases ff <;> cases cr <;> cases op <;> cases cp <;>
    simp_all [uploadFile]

/-- With every fault switch off, an upload always succeeds. -/
theorem uploadFile_okEnv (fs : FS) (f : String) (i : Int) (d : List Nat) :
    uploadFile okUpEnv fs f i d =
      .ok { (ensureDirs fs).1 with
        temp := setFile (setFile (ensureDirs fs).1.temp (partName f i) [])
          (partName f i) d } := by
  simp [uploadFile, okUpEnv]

end UploadLemmas

section MergeLemmas

theorem sweepRemove_ok_none {ok : String → Bool} :
    ∀ {names : List String} {temp temp' : FileMap},
      sweepRemove ok names temp = .ok temp' →
      ∀ k, k ∈ names ∨ getFile temp k = none → getFile temp' k = none := by
  intro names
  induction names with
  | nil =>
    intro temp temp' h k hk
    cases hk with
    | inl hmem => cases hmem
    | inr hnone =>
      have : temp = temp' := by
        simpa [sweepRemove] using h
      rw [← this]
      exact hnone
  | cons n rest ih =>
    intro temp temp' h k hk
    rw [sweepRemove] at h
    by_cases hn : ok n = false
    · rw [if_pos hn] at h
      cases h
    · rw [if_neg hn] at h
      rcases hk with hmem | hnone
      · rcases List.mem_cons.mp hmem with rfl | hmem'
        · exact ih h k (Or.inr (getFile_removeFile_self temp k))
        · exact ih h k (Or.inl hmem')
      · exact ih h k (Or.inr (getFile_removeFile_none temp n k hnone))

theorem getFile_mem_names {temp : FileMap} {k : String} {v : List Nat}
    (h : getFile temp k = some v) : k ∈ temp.map Prod.fst := by
  induction temp with
  | nil => cases h
  | cons e rest ih =>
    obtain ⟨a, b⟩ := e
    by_cases ha : a = k
    · simp [ha]
    · rw [getFile, if_neg ha] at h
      simp [ih h]

/-- A sweep that returned `ok` left no `*.part*` file behind. -/
theorem cleanUp_ok_none {ok : String → Bool} {temp temp' : FileMap}
    (h : cleanUpTempFiles ok temp = .ok temp') {name : String}
    (hg : globPartMatch name = true) : getFile temp' name = none := by
  cases hgf : getFile temp name with
  | none => exact sweepRemove_ok_none h name (Or.inr hgf)
  | some v =>
    have hmem : name ∈ globMatches temp :=
      List.mem_filter.mpr ⟨getFile_mem_names hgf, hg⟩
    exact sweepRemove_ok_none h name (Or.inl hmem)

theorem sweepRemove_allOk {ok : String → Bool} (hok : ∀ s, ok s = true) :
    ∀ (names : List String) (temp : FileMap),
      ∃ t', sweepRemove ok names temp = .ok t' := by
  intro names
  induction names with
  | nil => intro temp; exact ⟨temp, rfl⟩
  | cons n rest ih =>
    intro temp
    obtain ⟨t', ht'⟩ := ih (removeFile temp n)
    refine ⟨t', ?_⟩
    rw [sweepRemove, if_neg (by simp [hok n]), ht']

/-- Inversion of a successful merge call. -/
theorem mergeChunks_ok_inv {env : MergeEnv} {fs : FS} {f : String} {n : Int}
    {fs' : FS} {log : List LogMsg}
    (h : mergeChunks env fs f n = .ok (fs', log)) :
    env.parseOk = true ∧ env.createOk = true ∧
      ∃ temp',
        cleanUpTempFiles env.sweepRemoveOk
            (mergeLoop env f (env.sched (List.range n.toNat))
              (fs.temp, [], [])).1 = .ok temp' ∧
        fs' = { fs with
                temp := temp',
                uploads := setFile fs.uploads f
                  (mergeLoop env f (env.sched (List.range n.toNat))
                    (fs.temp, [], [])).2.1 } ∧
        log = (mergeLoop env f (env.sched (List.range n.toNat))
          (fs.temp, [], [])).2.2 := by
  simp only [mergeChunks] at h
  by_cases hp : env.parseOk = false
  · rw [if_pos hp] at h
    cases h
  rw [if_neg hp] at h
  by_cases hc : env.createOk = false
  · rw [if_pos hc] at h
    cases h
  rw [if_neg hc] at h
  refine ⟨by simpa using hp, by simpa using hc, ?_⟩
  cases hcl : cleanUpTempFiles env.sweepRemoveOk
      (mergeLoop env f (env.sched (List.range n.toNat))
        (fs.temp, [], [])).1 with
  | error e =>
    rw [hcl] at h
    cases h
  | ok temp' =>
    rw [hcl] at h
    refine ⟨temp', rfl, ?_, ?_⟩
    · exact congrArg Prod.fst (Except.ok.inj h) |>.symm
    · exact congrArg Prod.snd (Except.ok.inj h) |>.symm

/-- Computation rule for a merge whose fatal steps all succeed. -/
theorem mergeChunks_eq_of_sweep {env : MergeEnv} {fs : FS} {f : String}
    {n : Int} (hp : env.parseOk = true) (hc : env.createOk = true)
    {temp' : FileMap}
    (hcl : cleanUpTempFiles env.sweepRemoveOk
      (mergeLoop env f (env.sched (List.range n.toNat))
        (fs.temp, [], [])).1 = .ok temp') :
    mergeChunks env fs f n =
      .ok ({ fs with
             temp := temp',
             uploads := setFile fs.uploads f
               (mergeLoop env f (env.sched (List.range n.toNat))
                 (fs.temp, [], [])).2.1 },
        (mergeLoop env f (env.sched (List.range n.toNat))
          (fs.temp, [], [])).2.2) := by
  simp only [mergeChunks]
  rw [if_neg (by simp [hp]), if_neg (by simp [hc]), hcl]

/-- With the fatal switches off, a merge call always succeeds, and the
output artifact holds exactly the bytes accumulated by the loop. -/
theorem mergeChunks_ok_of_fatalOk {env : MergeEnv} (fs : FS) (f : String)
    (n : Int) (hp : env.parseOk = true) (hc : env.createOk = true)
    (hs : ∀ s, env.sweepRemoveOk s = true) :
    ∃ fs' log, mergeChunks env fs f n = .ok (fs', log) ∧
      getFile fs'.uploads f =
        some ((mergeLoop env f (env.sched (List.range n.toNat))
          (fs.temp, [], [])).2.1) := by
  obtain ⟨t', ht'⟩ := sweepRemove_allOk hs
    (globMatches (mergeLoop env f (env.sched (List.range n.toNat))
      (fs.temp, [], [])).1)
    (mergeLoop env f (env.sched (List.range n.toNat)) (fs.temp, [], [])).1
  exact ⟨_, _, mergeChunks_eq_of_sweep hp hc ht',
    getFile_setFile_self fs.uploads f _⟩

/-- When every goroutine-local operation succeeds, the bytes written to
the output file are the present chunks' payloads concatenated in
mutex-acquisition order. -/
theorem mergeLoop_allOk {env : MergeEnv} (hok : allChunkOk env) (f : String) :
    ∀ (sched : List Nat) (temp : FileMap) (out : List Nat) (log : List LogMsg),
      sched.Nodup →
      (mergeLoop env f sched (temp, out, log)).2.1 =
        out ++ (sched.filterMap
          (fun i => getFile temp (partNameN f i))).flatten := by
  intro sched
  induction sched with
  | nil =>
    intro temp out log _
    simp [mergeLoop]
  | cons i rest ih =>
    intro temp out log hnd
    obtain ⟨ho, hr, hw, hrm⟩ := hok
    have hni : i ∉ rest := (List.nodup_cons.mp hnd).1
    have hnd' : rest.Nodup := (List.nodup_cons.mp hnd).2
    cases hgf : getFile temp (partNameN f i) with
    | none =>
      have hpc : mergeLoop env f (i :: rest) (temp, out, log) =
          mergeLoop env f rest (temp, out, log ++ [LogMsg.missing i]) := by
        show mergeLoop env f rest (processChunk env f (temp, out, log) i) = _
        simp [processChunk, hgf]
      rw [hpc, ih temp out _ hnd']
      simp [List.filterMap_cons, hgf]
    | some data =>
      have hpc : mergeLoop env f (i :: rest) (temp, out, log) =
          mergeLoop env f rest
            (removeFile temp (partNameN f i), out ++ data, log) := by
        show mergeLoop env f rest (processChunk env f (temp, out, log) i) = _
        simp [processChunk, hgf, ho i, hr i, hw i, hrm i]
      rw [hpc, ih _ _ _ hnd']
      have hcong : rest.filterMap
            (fun j => getFile (removeFile temp (partNameN f i)) (partNameN f j)) =
          rest.filterMap (fun j => getFile temp (partNameN f j)) := by
        apply List.filterMap_congr
        intro j hj
        have hij : partNameN f j ≠ partNameN f i := by
          intro he
          exact hni ((partNameN_inj f he) ▸ hj)
        exact getFile_removeFile_ne temp (partNameN f i) (partNameN f j) hij
      rw [hcong]
      simp [List.filterMap_cons, hgf, List.append_assoc]

end MergeLemmas

/-! ## Claim theorems -/

/-- Input of the spec's concrete scenario: chunk 0 = "AAA" and
chunk 1 = "BBB" of `doc.txt`, both present in the temp directory. -/
def twoChunkFS : FS :=
  { temp := [("doc.txt.part0", [65, 65, 65]), ("doc.txt.part1", [66, 66, 66])],
    uploads := [], uploadsDirExists := true, tempDirExists := true }

/-- C1: refuted on the code.  With both chunks of `doc.txt` uploaded
("AAA" then "BBB") and `totalChunks = 2`, the execution in which the
goroutine of chunk 1 acquires the mutex first — a legal completion
order, `[1, 0]` being a permutation of the spawned task list — succeeds
but produces "BBBAAA": the output is not the index-order concatenation
for every completion order, although that is the stated invariant. -/
theorem mergeChunks_order_bug :
    ([1, 0] : List Nat).Perm (List.range (Int.toNat 2)) ∧
      mergeOut (okMergeEnv (fun _ => [1, 0])) twoChunkFS "doc.txt" 2 =
        some ([66, 66, 66] ++ [65, 65, 65]) ∧
      ([66, 66, 66] ++ [65, 65, 65] : List Nat) ≠
        [65, 65, 65] ++ [66, 66, 66] :=
  ⟨by decide, rfl, by decide⟩

/-- C2 (confirmed): after a successful upload of `(f, i, d)` with `f`
non-empty and `i ≥ 0`, the chunk artifact exists at exactly
`./temp/<f>.part<i>` — the index rendered as plain unsigned decimal,
no padding — and holds exactly the bytes `d`. -/
theorem uploadChunk_roundtrip (env : UploadEnv) (fs : FS) (f : String)
    (i : Int) (d : List Nat) (fs' : FS) (hf : f ≠ "") (hi : 0 ≤ i)
    (h : uploadFile env fs f i d = .ok fs') :
    getFile fs'.temp (f ++ ".part" ++ intRepr i) = some d ∧
      intRepr i = decRepr i.toNat := by
  constructor
  · rw [uploadFile_ok_shape h]
    exact getFile_setFile_self _ _ _
  · rw [intRepr, if_neg (by omega)]

def wUpFS : FS :=
  { temp := [], uploads := [], uploadsDirExists := false,
    tempDirExists := false }

def wUpFS' : FS :=
  { temp := [("a.part0", [5])], uploads := [], uploadsDirExists := true,
    tempDirExists := true }

theorem uploadChunk_roundtrip_witness :
    ("a" : String) ≠ "" ∧ (0 : Int) ≤ 0 ∧
      uploadFile okUpEnv wUpFS "a" 0 [5] = .ok wUpFS' ∧
      (getFile wUpFS'.temp ("a" ++ ".part" ++ intRepr 0) = some [5] ∧
        intRepr 0 = decRepr (Int.toNat 0)) :=
  ⟨by decide, by decide, rfl,
    uploadChunk_roundtrip okUpEnv wUpFS "a" 0 [5] wUpFS' (by decide)
      (by decide) rfl⟩

/-- C3 (confirmed): a merge call fails exactly when body parsing fails,
creating the output artifact fails, or a removal during the final sweep
fails; the per-chunk fault switches (missing, open, read, write, delete)
never make the call itself fail, so it can succeed with chunks
omitted. -/
theorem mergeChunks_fail_iff (env : MergeEnv) (fs : FS) (f : String)
    (n : Int) :
    exceptOk (mergeChunks env fs f n) = false ↔
      (env.parseOk = false ∨ env.createOk = false ∨
        exceptOk (cleanUpTempFiles env.sweepRemoveOk
          (mergeLoop env f (env.sched (List.range n.toNat))
            (fs.temp, [], [])).1) = false) := by
  by_cases hp : env.parseOk = false
  · simp only [mergeChunks, if_pos hp]
    simp [exceptOk, hp]
  by_cases hc : env.createOk = false
  · simp only [mergeChunks, if_neg hp, if_pos hc]
    simp [exceptOk, hc]
  simp only [mergeChunks, if_neg hp, if_neg hc]
  cases hcl : cleanUpTempFiles env.sweepRemoveOk
      (mergeLoop env f (env.sched (List.range n.toNat))
        (fs.temp, [], [])).1 with
  | error e => simp [exceptOk, hp, hc, hcl]
  | ok temp' => simp [exceptOk, hp, hc, hcl]

/-- Temp directory holding chunks 0 and 2 of `f`; chunk 1 is missing. -/
def gapChunkFS : FS :=
  { temp := [("f.part0", [1]), ("f.part2", [2])], uploads := [],
    uploadsDirExists := true, tempDirExists := true }

/-- C4 as stated is false: with chunk 1 of 3 missing and chunks 0 and 2
present, the legal completion order `[2, 0, 1]` merges successfully but
emits chunk 2 before chunk 0 — the output is not order-preserving among
the present indices. -/
theorem mergeChunks_missing_counter :
    ([2, 0, 1] : List Nat).Perm (List.range (Int.toNat 3)) ∧
      mergeOut (okMergeEnv (fun _ => [2, 0, 1])) gapChunkFS "f" 3 =
        some ([2] ++ [1]) ∧
      ([2] ++ [1] : List Nat) ≠ [1] ++ [2] :=
  ⟨by decide, rfl, by decide⟩

/-- C4 amended: when some chunks in `[0, totalChunks)` are absent and
every per-chunk operation succeeds, the merge still succeeds, and the
output artifact is the concatenation of exactly the present chunks in
the order the goroutines acquired the write mutex; this is
order-preserving among the present indices when that order is the
ascending index order, but not for every completion order. -/
theorem mergeChunks_missing_amended (env : MergeEnv) (fs : FS) (f : String)
    (n : Int) (hok : allChunkOk env) (hp : env.parseOk = true)
    (hc : env.createOk = true) (hs : ∀ s, env.sweepRemoveOk s = true)
    (hperm : (env.sched (List.range n.toNat)).Perm (List.range n.toNat)) :
    ∃ fs' log, mergeChunks env fs f n = .ok (fs', log) ∧
      getFile fs'.uploads f =
        some (((env.sched (List.range n.toNat)).filterMap
          (fun i => getFile fs.temp (partNameN f i))).flatten) ∧
      (env.sched (List.range n.toNat) = List.range n.toNat →
        getFile fs'.uploads f =
          some (((List.range n.toNat).filterMap
            (fun i => getFile fs.temp (partNameN f i))).flatten)) := by
  obtain ⟨fs', log, hmc, hout⟩ := mergeChunks_ok_of_fatalOk fs f n hp hc hs
  have hnd : (env.sched (List.range n.toNat)).Nodup :=
    hperm.nodup_iff.mpr (List.nodup_range n.toNat)
  have hloop := mergeLoop_allOk hok f (env.sched (List.range n.toNat))
    fs.temp [] [] hnd
  refine ⟨fs', log, hmc, ?_, ?_⟩
  · rw [hout, hloop]
    simp
  · intro hid
    rw [hout, hloop, hid]
    simp

def wRevSched : List Nat → List Nat := fun l => l.reverse

theorem mergeChunks_missing_amended_witness :
    allChunkOk (okMergeEnv wRevSched) ∧
      (okMergeEnv wRevSched).parseOk = true ∧
      (okMergeEnv wRevSched).createOk = true ∧
      (∀ s, (okMergeEnv wRevSched).sweepRemoveOk s = true) ∧
      ((okMergeEnv wRevSched).sched
        (List.range (Int.toNat 3))).Perm (List.range (Int.toNat 3)) ∧
      (∃ fs' log,
        mergeChunks (okMergeEnv wRevSched) gapChunkFS "f" 3 = .ok (fs', log) ∧
        getFile fs'.uploads "f" =
          some ((((okMergeEnv wRevSched).sched
            (List.range (Int.toNat 3))).filterMap
              (fun i => getFile gapChunkFS.temp (partNameN "f" i))).flatten) ∧
        ((okMergeEnv wRevSched).sched (List.range (Int.toNat 3)) =
            List.range (Int.toNat 3) →
          getFile fs'.uploads "f" =
            some (((List.range (Int.toNat 3)).filterMap
              (fun i => getFile gapChunkFS.temp (partNameN "f" i))).flatten))) :=
  ⟨⟨fun _ => rfl, fun _ => rfl, fun _ => rfl, fun _ => rfl⟩, rfl, rfl,
    fun _ => rfl, by decide,
    mergeChunks_missing_amended (okMergeEnv wRevSched) gapChunkFS "f" 3
      ⟨fun _ => rfl, fun _ => rfl, fun _ => rfl, fun _ => rfl⟩ rfl rfl
      (fun _ => rfl) (by decide)⟩

/-- C5 (confirmed): after any successful merge call, no file whose name
matches the sweep glob `*.part*` remains in the temp directory —
including orphaned chunks belonging to unrelated filenames. -/
theorem mergeChunks_sweep_clean (env : MergeEnv) (fs : FS) (f : String)
    (n : Int) (fs' : FS) (log : List LogMsg)
    (h : mergeChunks env fs f n = .ok (fs', log)) :
    ∀ name, globPartMatch name = true → getFile fs'.temp name = none := by
  obtain ⟨-, -, temp', hcl, hfs', -⟩ := mergeChunks_ok_inv h
  intro name hg
  rw [hfs']
  exact cleanUp_ok_none hcl hg

/-- Temp directory holding only an orphaned chunk of an unrelated
filename `g`. -/
def wOrphanFS : FS :=
  { temp := [("g.part5", [9])], uploads := [], uploadsDirExists := true,
    tempDirExists := true }

def wSweptFS : FS :=
  { temp := [], uploads := [("f", [])], uploadsDirExists := true,
    tempDirExists := true }

theorem mergeChunks_sweep_clean_witness :
    mergeChunks (okMergeEnv (fun l => l)) wOrphanFS "f" 0 =
        .ok (wSweptFS, []) ∧
      (globPartMatch "g.part5" = true →
        getFile wSweptFS.temp "g.part5" = none) :=
  ⟨rfl,
    mergeChunks_sweep_clean (okMergeEnv (fun l => l)) wOrphanFS "f" 0
      wSweptFS [] rfl "g.part5"⟩

/-- C9 (confirmed): a non-positive `totalChunks` is not rejected as an
invalid request — the loop spawns no tasks (the schedule is empty), and
provided output creation and the sweep succeed, the call reports
success with a zero-byte output artifact. -/
theorem mergeChunks_nonpos_total (env : MergeEnv) (fs : FS) (f : String)
    (n : Int) (hn : n ≤ 0) (hp : env.parseOk = true)
    (hc : env.createOk = true) (hs : ∀ s, env.sweepRemoveOk s = true)
    (hperm : (env.sched (List.range n.toNat)).Perm (List.range n.toNat)) :
    env.sched (List.range n.toNat) = [] ∧
      ∃ fs' log, mergeChunks env fs f n = .ok (fs', log) ∧
        getFile fs'.uploads f = some [] := by
  have h0 : n.toNat = 0 := Int.toNat_of_nonpos hn
  have hsched : env.sched (List.range n.toNat) = [] := by
    rw [h0, List.range_zero] at hperm ⊢
    exact hperm.eq_nil
  refine ⟨hsched, ?_⟩
  obtain ⟨fs', log, hmc, hout⟩ := mergeChunks_ok_of_fatalOk fs f n hp hc hs
  refine ⟨fs', log, hmc, ?_⟩
  rw [hout, hsched]
  rfl

theorem mergeChunks_nonpos_total_witness :
    (-2 : Int) ≤ 0 ∧
      ((okMergeEnv (fun l => l)).sched
        (List.range (Int.toNat (-2)))).Perm (List.range (Int.toNat (-2))) ∧
      ((okMergeEnv (fun l => l)).sched (List.range (Int.toNat (-2))) = [] ∧
        ∃ fs' log,
          mergeChunks (okMergeEnv (fun l => l)) wOrphanFS "h" (-2) =
            .ok (fs', log) ∧
          getFile fs'.uploads "h" = some []) :=
  ⟨by decide, by decide,
    mergeChunks_nonpos_total (okMergeEnv (fun l => l)) wOrphanFS "h" (-2)
      (by decide) rfl rfl (fun _ => rfl) (by decide)⟩

/-- Frame property of one successful upload, shared by the frame and
negative-index claims. -/
theorem uploadFile_ok_frame {env : UploadEnv} {fs : FS} {f : String}
    {i : Int} {d : List Nat} {fs' : FS}
    (h : uploadFile env fs f i d = .ok fs') :
    getFile fs'.temp (partName f i) = some d ∧
      (∀ p, p ≠ partName f i → getFile fs'.temp p = getFile fs.temp p) ∧
      fs'.uploads = fs.uploads := by
  have hs := uploadFile_ok_shape h
  refine ⟨?_, ?_, ?_⟩
  · rw [hs]
    exact getFile_setFile_self _ _ _
  · intro p hp
    rw [hs]
    show getFile (setFile (setFile (ensureDirs fs).1.temp (partName f i) [])
      (partName f i) d) p = getFile fs.temp p
    rw [getFile_setFile_ne _ _ _ _ hp, getFile_setFile_ne _ _ _ _ hp,
      ensureDirs_temp]
  · rw [hs]
    show (ensureDirs fs).1.uploads = fs.uploads
    exact ensureDirs_uploads fs

/-- C7 (confirmed): a successful upload creates or overwrites only the
chunk artifact at its deterministic path — every other temp artifact
and the whole uploads directory are untouched — and a second successful
upload with the same (filename, index) silently overwrites the first
(last-write-wins), again leaving every other artifact unchanged. -/
theorem uploadChunk_frame (env : UploadEnv) (fs : FS) (f : String) (i : Int)
    (d : List Nat) (fs' : FS) (h : uploadFile env fs f i d = .ok fs') :
    getFile fs'.temp (partName f i) = some d ∧
      (∀ p, p ≠ partName f i → getFile fs'.temp p = getFile fs.temp p) ∧
      fs'.uploads = fs.uploads ∧
      ∀ env2 d2 fs'', uploadFile env2 fs' f i d2 = .ok fs'' →
        getFile fs''.temp (partName f i) = some d2 ∧
          (∀ p, p ≠ partName f i → getFile fs''.temp p = getFile fs'.temp p) ∧
          fs''.uploads = fs'.uploads := by
  obtain ⟨h1, h2, h3⟩ := uploadFile_ok_frame h
  exact ⟨h1, h2, h3, fun env2 d2 fs'' h' => uploadFile_ok_frame h'⟩

def wFrameFS : FS :=
  { temp := [("b.part1", [1, 2]), ("other.txt", [3])],
    uploads := [("done", [4])], uploadsDirExists := true,
    tempDirExists := true }

def wFrameFS' : FS :=
  { temp := [("b.part1", [8]), ("other.txt", [3])],
    uploads := [("done", [4])], uploadsDirExists := true,
    tempDirExists := true }

theorem uploadChunk_frame_witness :
    uploadFile okUpEnv wFrameFS "b" 1 [8] = .ok wFrameFS' ∧
      (getFile wFrameFS'.temp (partName "b" 1) = some [8] ∧
        (∀ p, p ≠ partName "b" 1 →
          getFile wFrameFS'.temp p = getFile wFrameFS.temp p) ∧
        wFrameFS'.uploads = wFrameFS.uploads ∧
        ∀ env2 d2 fs'', uploadFile env2 wFrameFS' "b" 1 d2 = .ok fs'' →
          getFile fs''.temp (partName "b" 1) = some d2 ∧
            (∀ p, p ≠ partName "b" 1 →
              getFile fs''.temp p = getFile wFrameFS'.temp p) ∧
            fs''.uploads = wFrameFS'.uploads) :=
  ⟨rfl, uploadChunk_frame okUpEnv wFrameFS "b" 1 [8] wFrameFS' rfl⟩

/-- C8 (confirmed): directory setup is idempotent — after any
successful upload both directories exist, so the next call's setup
creates nothing (in particular it cannot fail because a directory
already exists), and a second upload with working I/O always
succeeds. -/
theorem dirSetup_idempotent (env : UploadEnv) (fs : FS) (f : String)
    (i : Int) (d : List Nat) (fs' : FS)
    (h : uploadFile env fs f i d = .ok fs') :
    ensureDirs fs' = (fs', []) ∧
      ∀ f2 i2 d2, ∃ fs'', uploadFile okUpEnv fs' f2 i2 d2 = .ok fs'' := by
  have hs := uploadFile_ok_shape h
  have hu : fs'.uploadsDirExists = true := by
    rw [hs]
    exact (ensureDirs_flags fs).1
  have ht : fs'.tempDirExists = true := by
    rw [hs]
    exact (ensureDirs_flags fs).2
  exact ⟨ensureDirs_of_exists fs' hu ht,
    fun f2 i2 d2 => ⟨_, uploadFile_okEnv fs' f2 i2 d2⟩⟩

theorem dirSetup_idempotent_witness :
    uploadFile okUpEnv wUpFS "a" 0 [5] = .ok wUpFS' ∧
      (ensureDirs wUpFS' = (wUpFS', []) ∧
        ∀ f2 i2 d2, ∃ fs'', uploadFile okUpEnv wUpFS' f2 i2 d2 = .ok fs'') :=
  ⟨rfl, dirSetup_idempotent okUpEnv wUpFS "a" 0 [5] wUpFS' rfl⟩

/-- C10 (confirmed): a negative chunk index passes through without
validation — the upload succeeds (given working I/O), the artifact's
name renders the minus sign (`<f>.part-<abs i>`), that name still
matches the sweep glob `*.part*`, and the sweep of any later successful
merge removes the artifact. -/
theorem uploadChunk_negative_index (fs : FS) (f : String) (d : List Nat)
    (i : Int) (hi : i < 0) :
    intRepr i = "-" ++ decRepr i.natAbs ∧
      globPartMatch (partName f i) = true ∧
      ∃ fs', uploadFile okUpEnv fs f i d = .ok fs' ∧
        getFile fs'.temp (partName f i) = some d ∧
        ∀ env2 g m fs'' log, mergeChunks env2 fs' g m = .ok (fs'', log) →
          getFile fs''.temp (partName f i) = none := by
  refine ⟨by rw [intRepr, if_pos hi], globPartMatch_partName f i, ?_⟩
  refine ⟨_, uploadFile_okEnv fs f i d, ?_, ?_⟩
  · exact getFile_setFile_self _ _ _
  · intro env2 g m fs'' log h2
    obtain ⟨-, -, temp', hcl, hfs', -⟩ := mergeChunks_ok_inv h2
    rw [hfs']
    exact cleanUp_ok_none hcl (globPartMatch_partName f i)

theorem uploadChunk_negative_index_witness :
    (-1 : Int) < 0 ∧
      (intRepr (-1) = "-" ++ decRepr (Int.natAbs (-1)) ∧
        globPartMatch (partName "b" (-1)) = true ∧
        ∃ fs', uploadFile okUpEnv wUpFS "b" (-1) [3] = .ok fs' ∧
          getFile fs'.temp (partName "b" (-1)) = some [3] ∧
          ∀ env2 g m fs'' log, mergeChunks env2 fs' g m = .ok (fs'', log) →
            getFile fs''.temp (partName "b" (-1)) = none) :=
  ⟨by decide, uploadChunk_negative_index wUpFS "b" [3] (-1) (by decide)⟩

/-- A merge execution in which every operation succeeds except the
goroutine-side `os.Remove` of each consumed chunk. -/
def silentDropEnv : MergeEnv :=
  { parseOk := true, createOk := true, openOk := fun _ => true,
    readOk := fun _ => true, writeOk := fun _ => true,
    removeOk := fun _ => false, sweepRemoveOk := fun _ => true,
    sched := fun l => l }

/-- C6 as stated is false: when the `os.Remove` of a consumed chunk
fails, the loop logs nothing — the source discards that error — even
though the failure left the chunk file behind (and the chunk's bytes
were written). -/
theorem chunk_failure_log_counter :
    silentDropEnv.removeOk 0 = false ∧
      (mergeLoop silentDropEnv "f" [0] ([("f.part0", [7])], [], [])).2.2 =
        [] ∧
      getFile (mergeLoop silentDropEnv "f" [0]
        ([("f.part0", [7])], [], [])).1 (partNameN "f" 0) = some [7] :=
  ⟨rfl, rfl, rfl⟩

/-- C6 amended: inside the merge loop a missing chunk, a failed open, a
failed read and a failed write are each logged and the chunk skipped,
with the remaining chunks processed from an unchanged temp directory
and output; a failed delete of a consumed chunk, however, is silently
ignored — nothing is logged, the chunk's bytes are still written, and
the stale chunk file is left for the sweep — and in every case the
remaining chunks' processing continues unaffected. -/
theorem chunk_failure_log_amended (env : MergeEnv) (f : String) (i : Nat)
    (temp : FileMap) (out : List Nat) (log : List LogMsg)
    (rest : List Nat) :
    (getFile temp (partNameN f i) = none →
      mergeLoop env f (i :: rest) (temp, out, log) =
        mergeLoop env f rest (temp, out, log ++ [LogMsg.missing i])) ∧
    (∀ d, getFile temp (partNameN f i) = some d → env.openOk i = false →
      mergeLoop env f (i :: rest) (temp, out, log) =
        mergeLoop env f rest (temp, out, log ++ [LogMsg.openFail i])) ∧
    (∀ d, getFile temp (partNameN f i) = some d → env.openOk i = true →
      env.readOk i = false →
      mergeLoop env f (i :: rest) (temp, out, log) =
        mergeLoop env f rest (temp, out, log ++ [LogMsg.readFail i])) ∧
    (∀ d, getFile temp (partNameN f i) = some d → env.openOk i = true →
      env.readOk i = true → env.writeOk i = false →
      mergeLoop env f (i :: rest) (temp, out, log) =
        mergeLoop env f rest (temp, out, log ++ [LogMsg.writeFail i])) ∧
    (∀ d, getFile temp (partNameN f i) = some d → env.openOk i = true →
      env.readOk i = true → env.writeOk i = true → env.removeOk i = false →
      mergeLoop env f (i :: rest) (temp, out, log) =
        mergeLoop env f rest (temp, out ++ d, log)) := by
  refine ⟨?_, ?_, ?_, ?_, ?_⟩
  · intro hgf
    show mergeLoop env f rest (processChunk env f (temp, out, log) i) = _
    simp [processChunk, hgf]
  · intro d hgf ho
    show mergeLoop env f rest (processChunk env f (temp, out, log) i) = _
    simp [processChunk, hgf, ho]
  · intro d hgf ho hr
    show mergeLoop env f rest (processChunk env f (temp, out, log) i) = _
    simp [processChunk, hgf, ho, hr]
  · intro d hgf ho hr hw
    show mergeLoop env f rest (processChunk env f (temp, out, log) i) = _
    simp [processChunk, hgf, ho, hr, hw]
  · intro d hgf ho hr hw hrm
    show mergeLoop env f rest (processChunk env f (temp, out, log) i) = _
    simp [processChunk, hgf, ho, hr, hw, hrm]

theorem chunk_failure_log_amended_witness :
    getFile [("f.part0", [7])] (partNameN "f" 0) = some [7] ∧
      silentDropEnv.openOk 0 = true ∧ silentDropEnv.readOk 0 = true ∧
      silentDropEnv.writeOk 0 = true ∧ silentDropEnv.removeOk 0 = false ∧
      mergeLoop silentDropEnv "f" [0] ([("f.part0", [7])], [], []) =
        mergeLoop silentDropEnv "f" [] ([("f.part0", [7])], [7], []) :=
  ⟨rfl, rfl, rfl, rfl, rfl,
    (chunk_failure_log_amended silentDropEnv "f" 0 [("f.part0", [7])] [] []
      []).2.2.2.2 [7] rfl rfl rfl rfl rfl⟩

/-- A merge execution whose output-file creation fails. -/
def createFailEnv : MergeEnv :=
  { parseOk := true, createOk := false, openOk := fun _ => true,
    readOk := fun _ => true, writeOk := fun _ => true,
    removeOk := fun _ => true, sweepRemoveOk := fun _ => true,
    sched := fun l => l }

theorem mergeChunks_fail_iff_witness :
    exceptOk (mergeChunks createFailEnv wOrphanFS "f" 1) = false :=
  (mergeChunks_fail_iff createFailEnv wOrphanFS "f" 1).mpr
    (Or.inr (Or.inl rfl))
